import Mathlib

set_option autoImplicit false

/-!
Shallow embedding of the aims-course-csv pipeline:
`get_slots.py` (batch fetching with retries, slot aggregation, output building)
and `combine_courses_slots.py` (date-based segment heuristic, slots.json read,
merge into the final per-course table).
-/

namespace AimsCourseCsv

/-- Model of Python `str.strip()` with no arguments: remove leading and
trailing whitespace.  Defined on the character list so that it evaluates
inside the kernel. -/
def pyStrip (s : String) : String :=
  ⟨((s.data.dropWhile Char.isWhitespace).reverse.dropWhile Char.isWhitespace).reverse⟩

/-- Python `datetime` values to minute precision, as produced by
`datetime.strptime(_, '%d %b, %Y %H:%M')` in `parse_date`
(combine_courses_slots.py lines 9-14). -/
structure PyDateTime where
  year : Nat
  month : Nat
  day : Nat
  hour : Nat
  minute : Nat
deriving DecidableEq, Repr

/-- Python `datetime` comparison `a <= b`: lexicographic on
(year, month, day, hour, minute). -/
def PyDateTime.leb (a b : PyDateTime) : Bool :=
  if a.year < b.year then true else if b.year < a.year then false
  else if a.month < b.month then true else if b.month < a.month then false
  else if a.day < b.day then true else if b.day < a.day then false
  else if a.hour < b.hour then true else if b.hour < a.hour then false
  else a.minute ≤ b.minute

/-! Boundary constants of `determine_segment` (combine_courses_slots.py lines 38-45). -/

def jan_05 : PyDateTime := ⟨2026, 1, 5, 0, 0⟩
def feb_09 : PyDateTime := ⟨2026, 2, 9, 0, 0⟩
def feb_10 : PyDateTime := ⟨2026, 2, 10, 0, 0⟩
def feb_26 : PyDateTime := ⟨2026, 2, 26, 0, 0⟩
def mar_09 : PyDateTime := ⟨2026, 3, 9, 0, 0⟩
def mar_20 : PyDateTime := ⟨2026, 3, 20, 0, 0⟩
def mar_23 : PyDateTime := ⟨2026, 3, 23, 0, 0⟩
def apr_27 : PyDateTime := ⟨2026, 4, 27, 0, 0⟩

/-- Embedding of `determine_segment` (combine_courses_slots.py lines 16-76).
The date arguments are the results of `parse_date` on the two raw fields:
`none` models a missing or unparseable date.  The final
`if start_seg and end_seg` of the source is kept as a nonzero test. -/
def determine_segment (start_dt end_dt : Option PyDateTime) : String :=
  match start_dt, end_dt with
  | some s, some e =>
    let start_seg : Nat :=
      if s.leb jan_05 then 1
      else if s.leb feb_10 then 2
      else if s.leb feb_26 then 3
      else if s.leb mar_23 then 4
      else 5
    let end_seg : Nat :=
      if e.leb feb_09 then 2
      else if e.leb mar_09 then 3
      else if e.leb mar_20 then 4
      else if e.leb apr_27 then 6
      else 6
    if start_seg ≠ 0 ∧ end_seg ≠ 0 then
      toString start_seg ++ "-" ++ toString end_seg
    else ""
  | _, _ => ""

/-- Ascending start-date boundaries with their bucket labels, read off the
spec's description of the classifier ("five buckets, labeled 1-5, chosen by
on-or-before comparisons, last bucket an open-ended catch-all"). -/
def startBoundaries : List (PyDateTime × Nat) :=
  [(jan_05, 1), (feb_10, 2), (feb_26, 3), (mar_23, 4)]

/-- Ascending end-date boundaries with their bucket labels (labels 2, 3, 4, 6). -/
def endBoundaries : List (PyDateTime × Nat) :=
  [(feb_09, 2), (mar_09, 3), (mar_20, 4), (apr_27, 6)]

/-- Spec-side start bucket: label of the first ascending boundary the date is
on-or-before; dates past every boundary fall in the catch-all bucket 5. -/
def specStartBucket (d : PyDateTime) : Nat :=
  ((startBoundaries.find? (fun p => d.leb p.1)).map Prod.snd).getD 5

/-- Spec-side end bucket: label of the first ascending boundary the date is
on-or-before; every date past the last boundary also maps to label 6. -/
def specEndBucket (d : PyDateTime) : Nat :=
  ((endBoundaries.find? (fun p => d.leb p.1)).map Prod.snd).getD 6

/-- Embedding of the slicing loop of `chunked` (get_slots.py lines 77-78):
consecutive `values[i : i + n]` slices.  The `n = 0` branch is unreachable
behind the guard in `chunked`. -/
def chunkedGo (n : Nat) (values : List String) : List (List String) :=
  match n, values with
  | 0, _ => []
  | _, [] => []
  | m + 1, v :: rest => (v :: rest).take (m + 1) :: chunkedGo (m + 1) ((v :: rest).drop (m + 1))
termination_by values.length
decreasing_by simp [List.length_drop]; omega

/-- Embedding of `chunked` (get_slots.py lines 74-78): a non-positive batch
size raises `ValueError` before any slice is produced. -/
def chunked (values : List String) (n : Int) : Except String (List (List String)) :=
  if n ≤ 0 then Except.error "batch size must be > 0"
  else Except.ok (chunkedGo n.toNat values)

/-- One raw row of the remote response, with the five fields read by the
aggregation loop (get_slots.py lines 226-230), before stripping. -/
structure RawRow where
  runningCourseId : String
  courseSlotId : String
  courseSlotCd : String
  slotPeriodCdDays : String
  segName : String
deriving DecidableEq, Repr

/-- Composite key `(rcid, slotId, slotCd)` of the aggregation maps. -/
abbrev SlotKey := String × String × String

/-- Aggregation state of `main`: `slot_map` is the
`defaultdict(set)` mapping keys to day/time sets, `segment_map` the plain
dict of first-seen segment names (get_slots.py lines 205-206). -/
@[ext]
structure AggState where
  slot_map : SlotKey → Finset String
  segment_map : SlotKey → Option String

/-- Initial aggregation state: every key maps to the empty set, no segment
names recorded. -/
def initAgg : AggState := ⟨fun _ => ∅, fun _ => none⟩

/-- Key of a raw row after stripping its fields. -/
def keyOf (it : RawRow) : SlotKey :=
  (pyStrip it.runningCourseId, pyStrip it.courseSlotId, pyStrip it.courseSlotCd)

/-- Embedding of one iteration of the row loop (get_slots.py lines 225-238):
rows missing rcid or day/time are skipped; the day/time is added to the key's
set; a non-empty segment name is recorded only if the key has none yet. -/
def processRow (st : AggState) (it : RawRow) : AggState :=
  let rcid := pyStrip it.runningCourseId
  let day_time := pyStrip it.slotPeriodCdDays
  if rcid = "" ∨ day_time = "" then st
  else
    let key : SlotKey := (rcid, pyStrip it.courseSlotId, pyStrip it.courseSlotCd)
    let st1 : AggState :=
      { st with slot_map := fun k => if k = key then insert day_time (st.slot_map k) else st.slot_map k }
    let seg_name := pyStrip it.segName
    if seg_name ≠ "" ∧ st1.segment_map key = none then
      { st1 with segment_map := fun k => if k = key then some seg_name else st1.segment_map k }
    else st1

/-- Processing of the rows of one successful batch response, in arrival order. -/
def processRows (st : AggState) (items : List RawRow) : AggState :=
  items.foldl processRow st

/-- Spec-side first-wins read-out: the segment name recorded for `k` is the
first row in arrival order that is not discarded (non-empty rcid and
day/time), has key `k`, and carries a non-empty segment name. -/
def specFirstSeg : List RawRow → SlotKey → Option String
  | [], _ => none
  | it :: rest, k =>
    if pyStrip it.runningCourseId ≠ "" ∧ pyStrip it.slotPeriodCdDays ≠ "" ∧
        keyOf it = k ∧ pyStrip it.segName ≠ "" then
      some (pyStrip it.segName)
    else specFirstSeg rest k

/-- Embedding of the per-batch retry loop (get_slots.py lines 212-249).
`fetch a` is the outcome of `post_timetable` on attempt number `a`; on
success the batch's rows are aggregated and the loop reports
(state, attempts made, success); an attempt numbered beyond `retries + 1`
abandons the batch with the state unchanged. -/
def attemptLoop (retries : Nat) (fetch : Nat → Except String (List RawRow))
    (st : AggState) (attempt : Nat) : AggState × Nat × Bool :=
  let a := attempt + 1
  match fetch a with
  | Except.ok items => (processRows st items, a, true)
  | Except.error _ =>
    if a ≤ retries + 1 then attemptLoop retries fetch st a
    else (st, a, false)
termination_by retries + 2 - attempt
decreasing_by omega

/-- Embedding of the batch loop of `main` (get_slots.py lines 211-251): one
retry loop per batch, threading the aggregation state; a failed batch does
not stop the loop. -/
def runBatches (retries : Nat) (fetches : List (Nat → Except String (List RawRow)))
    (st : AggState) : AggState :=
  match fetches with
  | [] => st
  | f :: rest => runBatches retries rest (attemptLoop retries f st 0).1

/-- Course metadata read from the input CSVs (get_slots.py lines 34-38). -/
structure CourseMeta where
  rcid : String
  ccode : String
  cname : String
deriving DecidableEq, Repr

/-- One slot entry of the slots.json output (get_slots.py lines 262-269). -/
structure OutSlot where
  courseSlotId : String
  courseSlotCd : String
  segName : String
  slotPeriodCdDays : List String
deriving DecidableEq, Repr

/-- One per-course entry of the slots.json output (get_slots.py lines 258-261). -/
structure OutEntry where
  rcid : String
  ccode : String
  cname : String
  slots : List OutSlot
deriving DecidableEq, Repr

/-- One iteration of the out_json building loop (get_slots.py lines 255-269):
look the course up in the metadata with fallback to empty code/name
(line 256), `setdefault` the per-course entry (lines 258-261), and append
the slot (lines 262-269). -/
def outJsonStep (courses : String → Option CourseMeta) (segmap : SlotKey → Option String)
    (m : String → Option OutEntry) (p : SlotKey × List String) : String → Option OutEntry :=
  let rcid := p.1.1
  let slot_id := p.1.2.1
  let slot_cd := p.1.2.2
  let course := (courses rcid).getD ⟨rcid, "", ""⟩
  let seg_name := (segmap p.1).getD ""
  let entry := (m rcid).getD ⟨rcid, course.ccode, course.cname, []⟩
  fun r => if r = rcid then
    some { entry with slots := entry.slots ++ [⟨slot_id, slot_cd, seg_name, p.2⟩] }
  else m r

/-- Embedding of the out_json building loop (get_slots.py lines 253-269),
iterating over the aggregated `slot_map` items; `items` carries the
aggregated day/time lists (already sorted by the source). -/
def buildOutJson (courses : String → Option CourseMeta) (segmap : SlotKey → Option String)
    (items : List (SlotKey × List String)) : String → Option OutEntry :=
  items.foldl (outJsonStep courses segmap) (fun _ => none)

/-- Declared fieldnames of the per-slot CSV writer (get_slots.py lines 281-287). -/
def slotsCsvFieldnames : List String :=
  ["rcid", "ccode", "cname", "cegName", "slotPeriodCdDays"]

/-- Keys of the dict passed to `writer.writerow` for each slot key
(get_slots.py lines 296-306). -/
def slotsCsvRowKeys : List String :=
  ["rcid", "ccode", "cname", "courseSlotId", "courseSlotCd", "segName", "slotPeriodCdDays"]

/-- Model of Python `csv.DictWriter.writerow` with the default
`extrasaction="raise"`: it raises `ValueError` exactly when the row dict has
a key outside the declared fieldnames (missing keys are filled with
`restval` and do not raise). -/
def dictWriterWriterow (fieldnames rowKeys : List String) : Except String Unit :=
  let wrong_fields := rowKeys.filter (fun k => ¬ fieldnames.contains k)
  if wrong_fields ≠ [] then
    Except.error "dict contains fields not in fieldnames"
  else Except.ok ()

/-- Embedding of the per-slot CSV writing loop (get_slots.py lines 290-306):
one `writerow` per aggregated slot key; a raised `ValueError` propagates. -/
def writeSlotsCsv (keys : List SlotKey) : Except String Unit :=
  keys.foldlM (fun _ _ => dictWriterWriterow slotsCsvFieldnames slotsCsvRowKeys) ()

/-- One course record of `combine_courses_slots.py` (lines 100-108). -/
structure Course where
  rcid : String
  ccode : String
  cname : String
  coordname : String
  ccrd : String
  segment : String
  slots : String
deriving DecidableEq, Repr

/-- One row of a courses CSV as read by `combine_courses_slots.py`
(lines 86-97).  The two date columns are represented by the result of
`parse_date` on them: `none` models a missing or unparseable date. -/
structure CsvRow where
  rcid : String
  ccode : String
  cname : String
  coordname : String
  ccrd : String
  strtdt : Option PyDateTime
  enddt : Option PyDateTime
deriving DecidableEq, Repr

/-- Course record built from a CSV row (combine_courses_slots.py lines 93-108). -/
def courseOfRow (row : CsvRow) : Course :=
  { rcid := pyStrip row.rcid
    ccode := pyStrip row.ccode
    cname := pyStrip row.cname
    coordname := pyStrip row.coordname
    ccrd := pyStrip row.ccrd
    segment := determine_segment row.strtdt row.enddt
    slots := "" }

/-- One iteration of the courses-reading loop (combine_courses_slots.py
lines 86-108): skip rows with empty rcid and keep only the first occurrence
of each rcid. -/
def courseStep (acc : List (String × Course)) (row : CsvRow) : List (String × Course) :=
  let rcid := pyStrip row.rcid
  if rcid = "" then acc
  else if (acc.lookup rcid).isSome then acc
  else acc ++ [(rcid, courseOfRow row)]

/-- Embedding of the courses-reading loop (combine_courses_slots.py
lines 79-108), in insertion order. -/
def readCoursesC (rows : List CsvRow) : List (String × Course) :=
  rows.foldl courseStep []

/-- One step of the slots.json reading loop (combine_courses_slots.py
lines 117-123): a non-empty slot code and a non-empty segment name each
overwrite the maps at the course's id. -/
def slotStep (rcid : String)
    (maps : (String → Option String) × (String → Option String))
    (slot : OutSlot) : (String → Option String) × (String → Option String) :=
  let slot_cd := pyStrip slot.courseSlotCd
  let seg_name := pyStrip slot.segName
  let m1 := if slot_cd ≠ "" then (fun r => if r = rcid then some slot_cd else maps.1 r) else maps.1
  let m2 := if seg_name ≠ "" then (fun r => if r = rcid then some seg_name else maps.2 r) else maps.2
  (m1, m2)

/-- Embedding of the slots.json read (combine_courses_slots.py
lines 110-123), producing `(slots_map, segment_map)`. -/
def readSlotsJson (data : List (String × List OutSlot)) :
    (String → Option String) × (String → Option String) :=
  data.foldl (fun maps p => p.2.foldl (slotStep p.1) maps) (fun _ => none, fun _ => none)

/-- Embedding of the merge loop body (combine_courses_slots.py
lines 144-150): the slot code from `slots_map` and the API segment from
`segment_map` overwrite the course record when present. -/
def mergeCourse (slots_map segment_map : String → Option String) (course : Course) : Course :=
  let c1 := match slots_map course.rcid with
    | some v => { course with slots := v }
    | none => course
  match segment_map c1.rcid with
  | some v => { c1 with segment := v }
  | none => c1

/-- Embedding of the whole combine pipeline (minus file mechanics): read the
courses, read slots.json, merge, and sort by course code as the output loop
does (combine_courses_slots.py line 158). -/
def finalTable (rows : List CsvRow) (data : List (String × List OutSlot)) : List Course :=
  let courses := readCoursesC rows
  let maps := readSlotsJson data
  let merged := courses.map (fun p => mergeCourse maps.1 maps.2 p.2)
  merged.mergeSort (fun a b => decide (a.ccode ≤ b.ccode))

/-- Spec-side read-out of the slots.json loop for segment names: the last
non-empty (stripped) segment name of the slot list, in list order. -/
def lastNonEmptySeg : List OutSlot → Option String
  | [] => none
  | s :: rest =>
    match lastNonEmptySeg rest with
    | some v => some v
    | none => if pyStrip s.segName ≠ "" then some (pyStrip s.segName) else none

/-- Spec-side read-out of the slots.json loop for slot codes: the last
non-empty (stripped) slot code of the slot list, in list order. -/
def lastNonEmptyCd : List OutSlot → Option String
  | [] => none
  | s :: rest =>
    match lastNonEmptyCd rest with
    | some v => some v
    | none => if pyStrip s.courseSlotCd ≠ "" then some (pyStrip s.courseSlotCd) else none

/-! Sample data used by the concrete witnesses. -/

/-- Sample metadata row: heuristic dates Feb 1 to Mar 15 2026 (segment "2-4"). -/
def wRow : CsvRow :=
  ⟨"101", "CS101", "Intro", "Coord", "3", some ⟨2026, 2, 1, 0, 0⟩, some ⟨2026, 3, 15, 0, 0⟩⟩

/-- Sample slot list with authoritative segment name "3". -/
def wSlots : List OutSlot := [⟨"1", "S1", "3", ["Mon"]⟩]

/-- Sample slots.json content for `wRow`. -/
def wData : List (String × List OutSlot) := [("101", wSlots)]

/-- Sample slot list with two distinct non-empty segment names and codes. -/
def wSlots2 : List OutSlot := [⟨"1", "S1", "A", ["Mon"]⟩, ⟨"2", "S2", "B", ["Tue"]⟩]

/-- Sample slots.json content holding `wSlots2`. -/
def wData2 : List (String × List OutSlot) := [("101", wSlots2)]

/-- Sample course record for the last-wins witness. -/
def wCourse : Course := ⟨"101", "CS101", "Intro", "Coord", "3", "1-6", ""⟩

/-- Sample merged record of `wRow` against `wData`. -/
def wMerged : Course :=
  mergeCourse (readSlotsJson wData).1 (readSlotsJson wData).2 (courseOfRow wRow)

/-! Bridging lemmas for the segment classifier. -/

theorem specStartBucket_eq (s : PyDateTime) :
    specStartBucket s =
      (if s.leb jan_05 then 1 else if s.leb feb_10 then 2
       else if s.leb feb_26 then 3 else if s.leb mar_23 then 4 else 5) := by
  simp only [specStartBucket, startBoundaries, List.find?]
  cases h1 : s.leb jan_05 <;> cases h2 : s.leb feb_10 <;>
    cases h3 : s.leb feb_26 <;> cases h4 : s.leb mar_23 <;> simp [h1, h2, h3, h4]

theorem specEndBucket_eq (e : PyDateTime) :
    specEndBucket e =
      (if e.leb feb_09 then 2 else if e.leb mar_09 then 3
       else if e.leb mar_20 then 4 else if e.leb apr_27 then 6 else 6) := by
  simp only [specEndBucket, endBoundaries, List.find?]
  cases h1 : e.leb feb_09 <;> cases h2 : e.leb mar_09 <;>
    cases h3 : e.leb mar_20 <;> cases h4 : e.leb apr_27 <;> simp [h1, h2, h3, h4]

theorem determine_segment_full (s e : PyDateTime) :
    determine_segment (some s) (some e) =
      toString (specStartBucket s) ++ "-" ++ toString (specEndBucket e) := by
  rw [specStartBucket_eq, specEndBucket_eq]
  simp only [determine_segment]
  cases h1 : s.leb jan_05 <;> cases h2 : s.leb feb_10 <;>
    cases h3 : s.leb feb_26 <;> cases h4 : s.leb mar_23 <;>
    cases h5 : e.leb feb_09 <;> cases h6 : e.leb mar_09 <;>
    cases h7 : e.leb mar_20 <;> cases h8 : e.leb apr_27 <;>
    simp [h1, h2, h3, h4, h5, h6, h7, h8]

/-! Bridging lemmas for `chunkedGo`. -/

theorem chunkedGo_nil (n : Nat) : chunkedGo n [] = [] := by
  cases n <;> simp [chunkedGo]

theorem chunkedGo_cons (m : Nat) (v : String) (rest : List String) :
    chunkedGo (m + 1) (v :: rest) =
      (v :: rest).take (m + 1) :: chunkedGo (m + 1) ((v :: rest).drop (m + 1)) := by
  simp [chunkedGo]

theorem chunkedGo_flatten (n : Nat) (values : List String) (hn : 0 < n) :
    (chunkedGo n values).flatten = values := by
  induction n, values using chunkedGo.induct with
  | case1 values => omega
  | case2 n h => simp [chunkedGo_nil]
  | case3 m v rest ih =>
    rw [chunkedGo_cons]
    simp only [List.flatten_cons, ih (by omega)]
    exact List.take_append_drop _ _

theorem chunkedGo_length (n : Nat) (values : List String) (hn : 0 < n) :
    (chunkedGo n values).length = (values.length + n - 1) / n := by
  induction n, values using chunkedGo.induct with
  | case1 values => omega
  | case2 n h =>
    rw [chunkedGo_nil]
    simp only [List.length_nil]
    exact (Nat.div_eq_of_lt (by omega)).symm
  | case3 m v rest ih =>
    rw [chunkedGo_cons]
    simp only [List.length_cons]
    rw [ih (by omega)]
    have hd : (List.drop (m + 1) (v :: rest)).length = rest.length - m := by
      rw [List.length_drop]
      simp only [List.length_cons]
      omega
    rw [hd]
    have e3 : rest.length - m + (m + 1) - 1 = rest.length - m + m := by omega
    have e4 : rest.length + 1 + (m + 1) - 1 = rest.length + m + 1 := by omega
    rw [e3, e4]
    by_cases hle : rest.length ≤ m
    · have e0 : rest.length - m = 0 := by omega
      rw [e0]
      have l1 : (0 + m) / (m + 1) = 0 := Nat.div_eq_of_lt (by omega)
      have l2 : (rest.length + m + 1) / (m + 1) = 1 :=
        Nat.div_eq_of_lt_le (by omega) (by omega)
      rw [l1, l2]
    · have e1 : rest.length - m + m = rest.length := by omega
      have e2 : rest.length + m + 1 = rest.length + (m + 1) := by omega
      rw [e1, e2, Nat.add_div_right _ (by omega)]

theorem chunkedGo_le (n : Nat) (values : List String) :
    ∀ c ∈ chunkedGo n values, c.length ≤ n := by
  induction n, values using chunkedGo.induct with
  | case1 values => simp [chunkedGo]
  | case2 n h => simp [chunkedGo_nil]
  | case3 m v rest ih =>
    intro c hc
    rw [chunkedGo_cons] at hc
    rcases List.mem_cons.1 hc with h | h
    · subst h; simp
    · exact ih c h

theorem chunkedGo_dropLast (n : Nat) (values : List String) :
    ∀ c ∈ (chunkedGo n values).dropLast, c.length = n := by
  induction n, values using chunkedGo.induct with
  | case1 values => simp [chunkedGo]
  | case2 n h => simp [chunkedGo_nil]
  | case3 m v rest ih =>
    intro c hc
    rw [chunkedGo_cons] at hc
    by_cases hrest : chunkedGo (m + 1) ((v :: rest).drop (m + 1)) = []
    · rw [hrest] at hc; simp at hc
    · rw [List.dropLast_cons_of_ne_nil hrest] at hc
      rcases List.mem_cons.1 hc with h | h
      · subst h
        have hd0 : (v :: rest).drop (m + 1) ≠ [] := by
          intro he
          exact hrest (by rw [he, chunkedGo_nil])
        have hlt : m + 1 < (v :: rest).length := by
          by_contra hx
          exact hd0 (List.drop_eq_nil_of_le (by omega))
        simp only [List.length_take, List.length_cons]
        simp only [List.length_cons] at hlt
        omega
      · exact ih c h

/-- C3: `determine_segment` returns the empty string when either date is
missing or unparseable; otherwise it returns "{start bucket}-{end bucket}",
the start bucket chosen by on-or-before comparison against the ascending
boundaries labeled 1-4 with open-ended catch-all label 5, and the end bucket
by comparison against the four ascending boundaries labeled 2, 3, 4, 6, with
every date past the last boundary also mapping to label 6. -/
theorem determine_segment_spec :
    (∀ e, determine_segment none e = "") ∧
    (∀ s, determine_segment s none = "") ∧
    (∀ s e : PyDateTime,
      determine_segment (some s) (some e) =
        toString (specStartBucket s) ++ "-" ++ toString (specEndBucket e)) := by
  refine ⟨fun e => rfl, fun s => ?_, determine_segment_full⟩
  cases s <;> rfl

/-- C8: for every parseable end date, a start date falling exactly on the
segment-1/segment-2 boundary date (jan_05) is classified into start
bucket 1: the boundary is inclusive on the lower bucket. -/
theorem start_bucket_boundary_inclusive :
    ∀ e : PyDateTime,
      determine_segment (some jan_05) (some e) = "1-" ++ toString (specEndBucket e) := by
  intro e
  rw [determine_segment_full]
  have h : specStartBucket jan_05 = 1 := by decide
  rw [h]
  have h2 : toString (1 : Nat) ++ "-" = "1-" := by decide
  rw [h2]

/-- C4: for every id list and batch size B > 0, `chunked` yields exactly
ceil(N/B) batches, each of size at most B, all but the last of size exactly
B, whose concatenation is the input list in order; for B ≤ 0 it fails with
an error before producing any batch. -/
theorem chunked_spec (values : List String) (B : Int) :
    (0 < B →
      ∃ cs, chunked values B = Except.ok cs ∧
        cs.length = (values.length + B.toNat - 1) / B.toNat ∧
        (∀ c ∈ cs, c.length ≤ B.toNat) ∧
        (∀ c ∈ cs.dropLast, c.length = B.toNat) ∧
        cs.flatten = values) ∧
    (B ≤ 0 → chunked values B = Except.error "batch size must be > 0") := by
  constructor
  · intro hB
    have hn : 0 < B.toNat := by omega
    refine ⟨chunkedGo B.toNat values, ?_, chunkedGo_length _ _ hn,
      chunkedGo_le _ _, chunkedGo_dropLast _ _, chunkedGo_flatten _ _ hn⟩
    simp only [chunked]
    rw [if_neg (by omega)]
  · intro hB
    simp only [chunked]
    rw [if_pos hB]

/-! Bridging lemmas for the slot aggregator. -/

theorem processRow_segment_map (st : AggState) (it : RawRow) (k : SlotKey) :
    (processRow st it).segment_map k =
      if pyStrip it.runningCourseId ≠ "" ∧ pyStrip it.slotPeriodCdDays ≠ "" ∧
          keyOf it = k ∧ pyStrip it.segName ≠ "" ∧ st.segment_map k = none
      then some (pyStrip it.segName) else st.segment_map k := by
  simp only [processRow, keyOf]
  by_cases h1 : pyStrip it.runningCourseId = "" ∨ pyStrip it.slotPeriodCdDays = ""
  · rw [if_pos h1, if_neg (by rcases h1 with h | h <;> simp [h])]
  · rw [if_neg h1]
    push_neg at h1
    by_cases hk : (pyStrip it.runningCourseId, pyStrip it.courseSlotId, pyStrip it.courseSlotCd) = k
    · subst hk
      split_ifs <;> simp_all
    · split_ifs <;> simp_all [Ne.symm hk]

theorem processRow_slot_map (st : AggState) (it : RawRow) (k : SlotKey) :
    (processRow st it).slot_map k =
      if pyStrip it.runningCourseId ≠ "" ∧ pyStrip it.slotPeriodCdDays ≠ "" ∧ keyOf it = k
      then insert (pyStrip it.slotPeriodCdDays) (st.slot_map k) else st.slot_map k := by
  simp only [processRow, keyOf]
  by_cases h1 : pyStrip it.runningCourseId = "" ∨ pyStrip it.slotPeriodCdDays = ""
  · rw [if_pos h1, if_neg (by rcases h1 with h | h <;> simp [h])]
  · rw [if_neg h1]
    push_neg at h1
    by_cases hk : (pyStrip it.runningCourseId, pyStrip it.courseSlotId, pyStrip it.courseSlotCd) = k
    · subst hk
      split_ifs <;> simp_all
    · split_ifs <;> simp_all [Ne.symm hk]

theorem processRows_segment_map (items : List RawRow) (st : AggState) (k : SlotKey) :
    (processRows st items).segment_map k =
      match st.segment_map k with
      | some v => some v
      | none => specFirstSeg items k := by
  induction items generalizing st with
  | nil => cases h : st.segment_map k <;> simp [processRows, specFirstSeg, h]
  | cons it rest ih =>
    show (processRows (processRow st it) rest).segment_map k = _
    rw [ih]
    rw [processRow_segment_map]
    by_cases hc : pyStrip it.runningCourseId ≠ "" ∧ pyStrip it.slotPeriodCdDays ≠ "" ∧
        keyOf it = k ∧ pyStrip it.segName ≠ ""
    · by_cases hnone : st.segment_map k = none
      · rw [if_pos ⟨hc.1, hc.2.1, hc.2.2.1, hc.2.2.2, hnone⟩]
        rw [hnone]
        simp [specFirstSeg, hc]
      · rw [if_neg (by tauto)]
        cases h : st.segment_map k
        · exact absurd h hnone
        · simp
    · rw [if_neg (by tauto)]
      cases h : st.segment_map k
      · simp only []
        rw [show specFirstSeg (it :: rest) k = specFirstSeg rest k from by
          simp only [specFirstSeg]; rw [if_neg hc]]
      · simp

/-- C6: for every arrival-ordered row sequence and every key, the aggregated
segment name is the first non-empty segment name among the key's
(non-discarded) rows, and once recorded it is never overwritten; in
particular two same-key rows with segment names "A" then "B" aggregate to
"A". -/
theorem aggregator_first_wins :
    (∀ items k, (processRows initAgg items).segment_map k = specFirstSeg items k) ∧
    (processRows initAgg
        [⟨"1", "S", "C", "Mon", "A"⟩, ⟨"1", "S", "C", "Tue", "B"⟩]).segment_map
      ("1", "S", "C") = some "A" := by
  constructor
  · intro items k
    rw [processRows_segment_map]
    simp [initAgg]
  · decide

/-- C7: aggregator insertion is idempotent: feeding the same raw slot row
twice produces exactly the same aggregation state (day/time sets and
segment names) as feeding it once. -/
theorem aggregator_insert_idempotent (st : AggState) (it : RawRow) :
    processRow (processRow st it) it = processRow st it := by
  apply AggState.ext
  · funext k
    simp only [processRow_slot_map]
    split_ifs <;> simp_all [Finset.insert_idem]
  · funext k
    simp only [processRow_segment_map]
    split_ifs <;> simp_all

/-! Bridging lemma for the retry loop. -/

theorem attemptLoop_all_fail (retries : Nat) (fetch : Nat → Except String (List RawRow))
    (st : AggState) (hfail : ∀ a, ∃ e, fetch a = Except.error e) :
    ∀ d attempt, attempt + d = retries + 1 →
      attemptLoop retries fetch st attempt = (st, retries + 2, false) := by
  intro d
  induction d with
  | zero =>
    intro attempt h
    rw [attemptLoop]
    obtain ⟨e, he⟩ := hfail (attempt + 1)
    rw [he]
    simp only []
    rw [if_neg (by omega)]
    have : attempt + 1 = retries + 2 := by omega
    rw [this]
  | succ d ih =>
    intro attempt h
    rw [attemptLoop]
    obtain ⟨e, he⟩ := hfail (attempt + 1)
    rw [he]
    simp only []
    rw [if_pos (by omega)]
    exact ih (attempt + 1) (by omega)

/-- C1 counterexample: with retries = 0 and a fetch that fails on every
attempt, the loop makes 2 total attempts, not retries + 1 = 1. -/
theorem retry_count_counterexample :
    (attemptLoop 0 (fun _ => Except.error "boom") initAgg 0).2.1 = 2 ∧
    (attemptLoop 0 (fun _ => Except.error "boom") initAgg 0).2.1 ≠ 0 + 1 := by
  have h := attemptLoop_all_fail 0 (fun _ => Except.error "boom") initAgg
    (fun _ => ⟨"boom", rfl⟩) 1 0 (by omega)
  rw [h]
  exact ⟨rfl, by decide⟩

/-- C1 (amended): for a batch whose fetch fails on every attempt, the loop
makes exactly retries + 2 total attempts, then reports the batch as failed
with the aggregation state unchanged, and the run continues with the next
batch. -/
theorem batch_retry_exhaustion (retries : Nat) (fetch : Nat → Except String (List RawRow))
    (st : AggState) (hfail : ∀ a, ∃ e, fetch a = Except.error e) :
    attemptLoop retries fetch st 0 = (st, retries + 2, false) ∧
    ∀ rest, runBatches retries (fetch :: rest) st = runBatches retries rest st := by
  have h := attemptLoop_all_fail retries fetch st hfail (retries + 1) 0 (by omega)
  refine ⟨h, fun rest => ?_⟩
  show runBatches retries rest (attemptLoop retries fetch st 0).1 = runBatches retries rest st
  rw [h]

/-- Witness for the amended C1 at retries = 1 with an always-failing fetch. -/
theorem batch_retry_exhaustion_witness :
    attemptLoop 1 (fun _ => Except.error "boom") initAgg 0 = (initAgg, 3, false) :=
  (batch_retry_exhaustion 1 (fun _ => Except.error "boom") initAgg
    (fun _ => ⟨"boom", rfl⟩)).1

/-- Witness for C4 at values = ["a", "b", "c"], B = 2 and B = -1. -/
theorem chunked_spec_witness :
    (∃ cs, chunked ["a", "b", "c"] 2 = Except.ok cs ∧
        cs.length = ((["a", "b", "c"] : List String).length + (2 : Int).toNat - 1) / (2 : Int).toNat ∧
        (∀ c ∈ cs, c.length ≤ (2 : Int).toNat) ∧
        (∀ c ∈ cs.dropLast, c.length = (2 : Int).toNat) ∧
        cs.flatten = ["a", "b", "c"]) ∧
    chunked ["a", "b", "c"] (-1) = Except.error "batch size must be > 0" :=
  ⟨(chunked_spec ["a", "b", "c"] 2).1 (by decide),
   (chunked_spec ["a", "b", "c"] (-1)).2 (by decide)⟩

/-! Bridging lemmas for the combine-side merge. -/

theorem mergeCourse_rcid (m1 m2 : String → Option String) (c : Course) :
    (mergeCourse m1 m2 c).rcid = c.rcid := by
  simp only [mergeCourse]
  cases m1 c.rcid <;> cases m2 c.rcid <;> simp

theorem mergeCourse_segment (m1 m2 : String → Option String) (c : Course) :
    (mergeCourse m1 m2 c).segment =
      match m2 c.rcid with
      | some v => v
      | none => c.segment := by
  simp only [mergeCourse]
  cases m1 c.rcid <;> cases m2 c.rcid <;> simp

theorem mergeCourse_slots (m1 m2 : String → Option String) (c : Course) :
    (mergeCourse m1 m2 c).slots =
      match m1 c.rcid with
      | some v => v
      | none => c.slots := by
  simp only [mergeCourse]
  cases m1 c.rcid <;> cases m2 c.rcid <;> simp

theorem slotStep_fold_ne (rcid : String) (ss : List OutSlot)
    (maps : (String → Option String) × (String → Option String)) (r : String) (hr : r ≠ rcid) :
    (ss.foldl (slotStep rcid) maps).1 r = maps.1 r ∧
    (ss.foldl (slotStep rcid) maps).2 r = maps.2 r := by
  induction ss generalizing maps with
  | nil => exact ⟨rfl, rfl⟩
  | cons s rest ih =>
    show (rest.foldl (slotStep rcid) (slotStep rcid maps s)).1 r = _ ∧
      (rest.foldl (slotStep rcid) (slotStep rcid maps s)).2 r = _
    rcases ih (slotStep rcid maps s) with ⟨h1, h2⟩
    rw [h1, h2]
    constructor
    · simp only [slotStep]
      split_ifs <;> simp [hr]
    · simp only [slotStep]
      split_ifs <;> simp [hr]

theorem slotStep_fold_at (rcid : String) (ss : List OutSlot)
    (maps : (String → Option String) × (String → Option String)) :
    (ss.foldl (slotStep rcid) maps).2 rcid =
      (match lastNonEmptySeg ss with
       | some v => some v
       | none => maps.2 rcid) ∧
    (ss.foldl (slotStep rcid) maps).1 rcid =
      (match lastNonEmptyCd ss with
       | some v => some v
       | none => maps.1 rcid) := by
  induction ss generalizing maps with
  | nil => exact ⟨by simp [lastNonEmptySeg], by simp [lastNonEmptyCd]⟩
  | cons s rest ih =>
    show (rest.foldl (slotStep rcid) (slotStep rcid maps s)).2 rcid = _ ∧
      (rest.foldl (slotStep rcid) (slotStep rcid maps s)).1 rcid = _
    rcases ih (slotStep rcid maps s) with ⟨h1, h2⟩
    rw [h1, h2]
    constructor
    · simp only [lastNonEmptySeg]
      cases hrest : lastNonEmptySeg rest
      · by_cases hs : pyStrip s.segName ≠ ""
        · simp [slotStep, hs]
        · simp [slotStep, hs]
      · simp
    · simp only [lastNonEmptyCd]
      cases hrest : lastNonEmptyCd rest
      · by_cases hs : pyStrip s.courseSlotCd ≠ ""
        · simp [slotStep, hs]
        · simp [slotStep, hs]
      · simp

theorem readSlotsJson_fold_not_mem (data : List (String × List OutSlot))
    (maps : (String → Option String) × (String → Option String)) (r : String)
    (hr : r ∉ data.map Prod.fst) :
    (data.foldl (fun m p => p.2.foldl (slotStep p.1) m) maps).1 r = maps.1 r ∧
    (data.foldl (fun m p => p.2.foldl (slotStep p.1) m) maps).2 r = maps.2 r := by
  induction data generalizing maps with
  | nil => exact ⟨rfl, rfl⟩
  | cons p rest ih =>
    have hne : r ≠ p.1 := by
      intro he
      exact hr (by simp [he])
    have hr2 : r ∉ rest.map Prod.fst := by
      intro hm
      exact hr (by simp [hm])
    rcases ih (p.2.foldl (slotStep p.1) maps) hr2 with ⟨h1, h2⟩
    rcases slotStep_fold_ne p.1 p.2 maps r hne with ⟨g1, g2⟩
    exact ⟨by rw [List.foldl_cons, h1, g1], by rw [List.foldl_cons, h2, g2]⟩

theorem readSlotsJson_fold_at (data : List (String × List OutSlot)) :
    ∀ (rcid : String) (ss : List OutSlot), (data.map Prod.fst).Nodup → (rcid, ss) ∈ data →
    ∀ maps : (String → Option String) × (String → Option String),
      (data.foldl (fun m p => p.2.foldl (slotStep p.1) m) maps).2 rcid =
        (match lastNonEmptySeg ss with
         | some v => some v
         | none => maps.2 rcid) ∧
      (data.foldl (fun m p => p.2.foldl (slotStep p.1) m) maps).1 rcid =
        (match lastNonEmptyCd ss with
         | some v => some v
         | none => maps.1 rcid) := by
  induction data with
  | nil =>
    intro rcid ss hnd hmem
    cases hmem
  | cons p rest ih =>
    intro rcid ss hnd hmem maps
    rw [List.map_cons, List.nodup_cons] at hnd
    rw [List.foldl_cons]
    rcases List.mem_cons.1 hmem with he | hm
    · have hp1 : p.1 = rcid := by rw [← he]
      have hp2 : p.2 = ss := by rw [← he]
      have hout : rcid ∉ rest.map Prod.fst := hp1 ▸ hnd.1
      rcases readSlotsJson_fold_not_mem rest (p.2.foldl (slotStep p.1) maps) rcid hout with ⟨k1, k2⟩
      rcases slotStep_fold_at p.1 p.2 maps with ⟨g1, g2⟩
      rw [hp1, hp2] at g1 g2
      constructor
      · rw [k2, hp1, hp2, g1]
      · rw [k1, hp1, hp2, g2]
    · have hne : rcid ≠ p.1 := by
        intro he2
        exact hnd.1 (by
          rw [← he2]
          exact List.mem_map.2 ⟨(rcid, ss), hm, rfl⟩)
      rcases slotStep_fold_ne p.1 p.2 maps rcid hne with ⟨g1, g2⟩
      rcases ih rcid ss hnd.2 hm (p.2.foldl (slotStep p.1) maps) with ⟨h1, h2⟩
      constructor
      · rw [h1, g2]
      · rw [h2, g1]

theorem readSlotsJson_at (data : List (String × List OutSlot))
    (hnd : (data.map Prod.fst).Nodup) (rcid : String) (ss : List OutSlot)
    (hmem : (rcid, ss) ∈ data) :
    (readSlotsJson data).2 rcid = lastNonEmptySeg ss ∧
    (readSlotsJson data).1 rcid = lastNonEmptyCd ss := by
  rcases readSlotsJson_fold_at data rcid ss hnd hmem (fun _ => none, fun _ => none) with ⟨h1, h2⟩
  constructor
  · rw [readSlotsJson, h1]
    cases lastNonEmptySeg ss <;> rfl
  · rw [readSlotsJson, h2]
    cases lastNonEmptyCd ss <;> rfl

theorem courseStep_mem (acc : List (String × Course)) (row : CsvRow) (p : String × Course)
    (hp : p ∈ courseStep acc row) :
    p ∈ acc ∨ (pyStrip row.rcid = p.1 ∧ pyStrip row.rcid ≠ "" ∧ p.2 = courseOfRow row) := by
  simp only [courseStep] at hp
  by_cases hc1 : pyStrip row.rcid = ""
  · rw [if_pos hc1] at hp
    exact Or.inl hp
  · rw [if_neg hc1] at hp
    by_cases hc2 : (acc.lookup (pyStrip row.rcid)).isSome = true
    · rw [if_pos hc2] at hp
      exact Or.inl hp
    · rw [if_neg hc2] at hp
      rcases List.mem_append.1 hp with h | h
      · exact Or.inl h
      · have he := List.mem_singleton.1 h
        subst he
        exact Or.inr ⟨rfl, hc1, rfl⟩

theorem readCoursesC_fold_mem (rows : List CsvRow) :
    ∀ (acc : List (String × Course)) (p : String × Course), p ∈ rows.foldl courseStep acc →
      p ∈ acc ∨
        ∃ row ∈ rows, pyStrip row.rcid = p.1 ∧ pyStrip row.rcid ≠ "" ∧ p.2 = courseOfRow row := by
  induction rows with
  | nil =>
    intro acc p hp
    exact Or.inl hp
  | cons row rest ih =>
    intro acc p hp
    rw [List.foldl_cons] at hp
    rcases ih (courseStep acc row) p hp with h | ⟨r, hr, h1, h2, h3⟩
    · rcases courseStep_mem acc row p h with h2 | ⟨h1, h2, h3⟩
      · exact Or.inl h2
      · exact Or.inr ⟨row, List.mem_cons_self _ _, h1, h2, h3⟩
    · exact Or.inr ⟨r, List.mem_cons_of_mem _ hr, h1, h2, h3⟩

theorem readCoursesC_mem (rows : List CsvRow) (p : String × Course)
    (hp : p ∈ readCoursesC rows) :
    ∃ row ∈ rows, pyStrip row.rcid = p.1 ∧ pyStrip row.rcid ≠ "" ∧ p.2 = courseOfRow row := by
  rcases readCoursesC_fold_mem rows [] p hp with h | h
  · cases h
  · exact h

/-- C5: for every course read from the metadata with at least one aggregated
slot list in slots.json, the merged record's segment is the authoritative
segment name when one is present and non-empty, else the course's heuristic
(date-classified) segment — which is itself empty when the dates are
unusable. -/
theorem merged_segment_precedence (rows : List CsvRow) (data : List (String × List OutSlot))
    (hnd : (data.map Prod.fst).Nodup) (rcid : String) (c : Course) (ss : List OutSlot)
    (hc : (rcid, c) ∈ readCoursesC rows) (hs : (rcid, ss) ∈ data) (hne : ss ≠ []) :
    ∃ row ∈ rows, c.segment = determine_segment row.strtdt row.enddt ∧
      (mergeCourse (readSlotsJson data).1 (readSlotsJson data).2 c).segment =
        (match lastNonEmptySeg ss with
         | some a => a
         | none => determine_segment row.strtdt row.enddt) := by
  rcases readCoursesC_mem rows (rcid, c) hc with ⟨row, hrow, h1, h2, h3⟩
  have hseg : c.segment = determine_segment row.strtdt row.enddt := by
    rw [show c = courseOfRow row from h3]
    rfl
  refine ⟨row, hrow, hseg, ?_⟩
  have hrcid : c.rcid = rcid := by
    rw [show c = courseOfRow row from h3]
    show pyStrip row.rcid = rcid
    exact h1
  rw [mergeCourse_segment, hrcid, (readSlotsJson_at data hnd rcid ss hs).1]
  cases lastNonEmptySeg ss
  · exact hseg
  · rfl

/-- Witness for C5: authoritative segment "3" beats heuristic "2-4". -/
theorem merged_segment_precedence_witness :
    (∃ row ∈ [wRow], (courseOfRow wRow).segment = determine_segment row.strtdt row.enddt ∧
      (mergeCourse (readSlotsJson wData).1 (readSlotsJson wData).2 (courseOfRow wRow)).segment =
        (match lastNonEmptySeg wSlots with
         | some a => a
         | none => determine_segment row.strtdt row.enddt)) ∧
    (courseOfRow wRow).segment = "2-4" ∧
    (mergeCourse (readSlotsJson wData).1 (readSlotsJson wData).2 (courseOfRow wRow)).segment = "3" :=
  ⟨merged_segment_precedence [wRow] wData (by decide) "101" (courseOfRow wRow) wSlots
      (by decide) (by decide) (by decide),
   by decide, by decide⟩

/-- C10: at merge level the segment name and the representative slot code
are last-wins over the stored slot list: the merged record carries the last
non-empty segment name and the last non-empty slot code of the course's
slot list in stored order, in contrast to the per-key first-wins rule of
the aggregation stage. -/
theorem merge_last_wins (data : List (String × List OutSlot))
    (hnd : (data.map Prod.fst).Nodup) (rcid : String) (ss : List OutSlot)
    (hs : (rcid, ss) ∈ data) (c : Course) (hc : c.rcid = rcid) :
    (mergeCourse (readSlotsJson data).1 (readSlotsJson data).2 c).segment =
      (lastNonEmptySeg ss).getD c.segment ∧
    (mergeCourse (readSlotsJson data).1 (readSlotsJson data).2 c).slots =
      (lastNonEmptyCd ss).getD c.slots := by
  rcases readSlotsJson_at data hnd rcid ss hs with ⟨h2, h1⟩
  constructor
  · rw [mergeCourse_segment, hc, h2]
    cases lastNonEmptySeg ss <;> rfl
  · rw [mergeCourse_slots, hc, h1]
    cases lastNonEmptyCd ss <;> rfl

/-- Witness for C10: segment names "A" then "B" merge to "B", slot codes
"S1" then "S2" merge to "S2". -/
theorem merge_last_wins_witness :
    ((mergeCourse (readSlotsJson wData2).1 (readSlotsJson wData2).2 wCourse).segment =
        (lastNonEmptySeg wSlots2).getD wCourse.segment ∧
      (mergeCourse (readSlotsJson wData2).1 (readSlotsJson wData2).2 wCourse).slots =
        (lastNonEmptyCd wSlots2).getD wCourse.slots) ∧
    (mergeCourse (readSlotsJson wData2).1 (readSlotsJson wData2).2 wCourse).segment = "B" ∧
    (mergeCourse (readSlotsJson wData2).1 (readSlotsJson wData2).2 wCourse).slots = "S2" :=
  ⟨merge_last_wins wData2 (by decide) "101" wSlots2 (by decide) wCourse rfl,
   by decide, by decide⟩

/-- C2 evidence: the per-slot CSV write raises `ValueError` on every
non-empty aggregation: the row dicts carry the keys courseSlotId,
courseSlotCd and segName, none of which is among the declared fieldnames
(rcid, ccode, cname, cegName, slotPeriodCdDays). -/
theorem slots_csv_write_raises (keys : List SlotKey) (h : keys ≠ []) :
    writeSlotsCsv keys = Except.error "dict contains fields not in fieldnames" := by
  cases keys with
  | nil => exact absurd rfl h
  | cons k rest =>
    have hrow : dictWriterWriterow slotsCsvFieldnames slotsCsvRowKeys =
        Except.error "dict contains fields not in fieldnames" := rfl
    show List.foldlM (fun _ _ => dictWriterWriterow slotsCsvFieldnames slotsCsvRowKeys) ()
      (k :: rest) = Except.error "dict contains fields not in fieldnames"
    rw [List.foldlM_cons, hrow]
    rfl

/-- Witness for the C2 evidence at a single aggregated slot key. -/
theorem slots_csv_write_raises_witness :
    writeSlotsCsv [("1", "S", "C")] = Except.error "dict contains fields not in fieldnames" :=
  slots_csv_write_raises [("1", "S", "C")] (by decide)

/-! Bridging lemmas for the out_json building loop. -/

theorem outJsonStep_meta (courses : String → Option CourseMeta) (segmap : SlotKey → Option String)
    (m : String → Option OutEntry)
    (hm : ∀ r e, m r = some e → e.ccode = ((courses r).getD ⟨r, "", ""⟩).ccode ∧
        e.cname = ((courses r).getD ⟨r, "", ""⟩).cname)
    (p : SlotKey × List String) :
    ∀ r e, outJsonStep courses segmap m p r = some e →
      e.ccode = ((courses r).getD ⟨r, "", ""⟩).ccode ∧
      e.cname = ((courses r).getD ⟨r, "", ""⟩).cname := by
  intro r e he
  simp only [outJsonStep] at he
  by_cases hr : r = p.1.1
  · subst hr
    rw [if_pos rfl] at he
    rw [← Option.some.inj he]
    cases hm0 : m p.1.1 with
    | none => exact ⟨rfl, rfl⟩
    | some e0 => exact hm p.1.1 e0 hm0
  · rw [if_neg hr] at he
    exact hm r e he

theorem buildOutJson_fold_meta (courses : String → Option CourseMeta)
    (segmap : SlotKey → Option String) (items : List (SlotKey × List String)) :
    ∀ (m : String → Option OutEntry),
      (∀ r e, m r = some e → e.ccode = ((courses r).getD ⟨r, "", ""⟩).ccode ∧
          e.cname = ((courses r).getD ⟨r, "", ""⟩).cname) →
      ∀ r e, (items.foldl (outJsonStep courses segmap) m) r = some e →
        e.ccode = ((courses r).getD ⟨r, "", ""⟩).ccode ∧
        e.cname = ((courses r).getD ⟨r, "", ""⟩).cname := by
  induction items with
  | nil =>
    intro m hm r e he
    exact hm r e he
  | cons p rest ih =>
    intro m hm r e he
    rw [List.foldl_cons] at he
    exact ih (outJsonStep courses segmap m p) (outJsonStep_meta courses segmap m hm p) r e he

theorem outJsonStep_mono (courses : String → Option CourseMeta) (segmap : SlotKey → Option String)
    (m : String → Option OutEntry) (p : SlotKey × List String) (r : String) (e0 : OutEntry)
    (s : OutSlot) (hm : m r = some e0) (hs : s ∈ e0.slots) :
    ∃ e1, outJsonStep courses segmap m p r = some e1 ∧ s ∈ e1.slots := by
  simp only [outJsonStep]
  by_cases hr : r = p.1.1
  · subst hr
    rw [if_pos rfl]
    refine ⟨_, rfl, ?_⟩
    rw [hm]
    simp [hs]
  · rw [if_neg hr]
    exact ⟨e0, hm, hs⟩

theorem buildOutJson_fold_mono (courses : String → Option CourseMeta)
    (segmap : SlotKey → Option String) (items : List (SlotKey × List String)) :
    ∀ (m : String → Option OutEntry) (r : String) (e0 : OutEntry) (s : OutSlot),
      m r = some e0 → s ∈ e0.slots →
      ∃ e, (items.foldl (outJsonStep courses segmap) m) r = some e ∧ s ∈ e.slots := by
  induction items with
  | nil =>
    intro m r e0 s hm hs
    exact ⟨e0, hm, hs⟩
  | cons p rest ih =>
    intro m r e0 s hm hs
    rw [List.foldl_cons]
    rcases outJsonStep_mono courses segmap m p r e0 s hm hs with ⟨e1, h1, h2⟩
    exact ih (outJsonStep courses segmap m p) r e1 s h1 h2

theorem outJsonStep_mem_self (courses : String → Option CourseMeta)
    (segmap : SlotKey → Option String) (m : String → Option OutEntry) (p : SlotKey × List String) :
    ∃ e1, outJsonStep courses segmap m p p.1.1 = some e1 ∧
      OutSlot.mk p.1.2.1 p.1.2.2 ((segmap p.1).getD "") p.2 ∈ e1.slots := by
  simp only [outJsonStep]
  rw [if_pos trivial]
  exact ⟨_, rfl, by simp⟩

theorem buildOutJson_fold_mem (courses : String → Option CourseMeta)
    (segmap : SlotKey → Option String) (items : List (SlotKey × List String)) :
    ∀ (m : String → Option OutEntry) (k : SlotKey) (dts : List String), (k, dts) ∈ items →
      ∃ e, (items.foldl (outJsonStep courses segmap) m) k.1 = some e ∧
        OutSlot.mk k.2.1 k.2.2 ((segmap k).getD "") dts ∈ e.slots := by
  induction items with
  | nil =>
    intro m k dts h
    cases h
  | cons p rest ih =>
    intro m k dts h
    rw [List.foldl_cons]
    rcases List.mem_cons.1 h with he | hm
    · have h1 : p.1 = k := by rw [← he]
      have h2 : p.2 = dts := by rw [← he]
      rcases outJsonStep_mem_self courses segmap m p with ⟨e1, hstep, hmem⟩
      rw [h1] at hstep hmem
      rw [h2] at hmem
      exact buildOutJson_fold_mono courses segmap rest (outJsonStep courses segmap m p) k.1 e1 _
        hstep hmem
    · exact ih (outJsonStep courses segmap m p) k dts hm

/-- C9: every record of the final merged table stems from a metadata row
with a non-empty course id, and an aggregated course id absent from the
metadata still receives an out_json entry holding its slot and segment
data, with empty metadata fields. -/
theorem merged_table_metadata_origin :
    (∀ (rows : List CsvRow) (data : List (String × List OutSlot)) (c : Course),
      c ∈ finalTable rows data →
      ∃ row ∈ rows, pyStrip row.rcid = c.rcid ∧ pyStrip row.rcid ≠ "") ∧
    (∀ (courses : String → Option CourseMeta) (segmap : SlotKey → Option String)
        (items : List (SlotKey × List String)) (k : SlotKey) (dts : List String),
      (k, dts) ∈ items → courses k.1 = none →
      ∃ e, buildOutJson courses segmap items k.1 = some e ∧
        e.ccode = "" ∧ e.cname = "" ∧
        OutSlot.mk k.2.1 k.2.2 ((segmap k).getD "") dts ∈ e.slots) := by
  constructor
  · intro rows data c hc
    have hmem : c ∈ (readCoursesC rows).map
        (fun p => mergeCourse (readSlotsJson data).1 (readSlotsJson data).2 p.2) := by
      simp only [finalTable] at hc
      rw [List.mem_mergeSort] at hc
      exact hc
    rcases List.mem_map.1 hmem with ⟨p, hp, hpm⟩
    rcases readCoursesC_mem rows p hp with ⟨row, hrow, h1, h2, h3⟩
    refine ⟨row, hrow, ?_, h2⟩
    rw [← hpm, mergeCourse_rcid, h3]
    rfl
  · intro courses segmap items k dts hmem hnone
    rcases buildOutJson_fold_mem courses segmap items (fun _ => none) k dts hmem with ⟨e, he, hs⟩
    have hmeta := buildOutJson_fold_meta courses segmap items (fun _ => none)
      (fun r e h => Option.noConfusion h) k.1 e he
    refine ⟨e, he, ?_, ?_, hs⟩
    · rw [hmeta.1, hnone]
      rfl
    · rw [hmeta.2, hnone]
      rfl

/-- Witness for C9: one metadata row and one aggregated key unknown to the
metadata. -/
theorem merged_table_metadata_origin_witness :
    (∃ row ∈ [wRow], pyStrip row.rcid = wMerged.rcid ∧ pyStrip row.rcid ≠ "") ∧
    (∃ e, buildOutJson (fun _ => none) (fun _ => none) [(("9", "1", "S1"), ["Mon"])] "9" = some e ∧
      e.ccode = "" ∧ e.cname = "" ∧ OutSlot.mk "1" "S1" "" ["Mon"] ∈ e.slots) :=
  ⟨merged_table_metadata_origin.1 [wRow] wData wMerged
      (by
        simp only [finalTable]
        rw [List.mem_mergeSort]
        decide),
   merged_table_metadata_origin.2 (fun _ => none) (fun _ => none)
      [(("9", "1", "S1"), ["Mon"])] ("9", "1", "S1") ["Mon"] (by decide) rfl⟩

end AimsCourseCsv
